import Mathlib

/-!
Shallow embedding of `pr-view` (`main.go`): a CLI that stores a list of
repository references in a JSON file, fetches open pull requests for each
stored reference from the GitHub API, and renders the results as a table.

Strings are modelled by Lean `String` and Go's byte/rune string functions by
character-list functions over `String.data`.  File and network I/O is made
explicit: the store file is an `Option String` (missing or present with
contents), `Save` is represented by the list an operation returns, and the
network is a parameter of the aggregation function.
-/

namespace PrView

/-! ### Models of the Go standard-library string helpers used by `main.go` -/

/-- Model of `unicode.IsSpace` restricted to the Latin-1 white space
characters (`\t`, `\n`, `\v`, `\f`, `\r`, space, NEL, NBSP); the program only
ever trims ASCII input. -/
def isGoSpace (c : Char) : Bool :=
  c = ' ' || c = '\t' || c = '\n' || c = '\x0b' || c = '\x0c' || c = '\r' ||
    c = '\x85' || c = '\xa0'

/-- Trim characters satisfying `p` from both ends of a character list. -/
def trimBy (p : Char → Bool) (l : List Char) : List Char :=
  ((l.dropWhile p).reverse.dropWhile p).reverse

/-- Model of `strings.TrimSpace`. -/
def goTrimSpace (s : String) : String :=
  ⟨trimBy isGoSpace s.data⟩

/-- Model of `strings.Trim(s, "/")` (the cutset is the single rune `/`). -/
def trimSlashes (l : List Char) : List Char :=
  trimBy (· = '/') l

/-- Model of `strings.Contains` for a one-rune substring. -/
def containsChar (l : List Char) (a : Char) : Bool :=
  l.any (· = a)

/-- Model of `strings.HasPrefix` on character lists. -/
def hasPrefixL : List Char → List Char → Bool
  | _, [] => true
  | [], _ :: _ => false
  | c :: cs, p :: ps => c = p && hasPrefixL cs ps

/-- Model of `strings.Contains` (substring search) on character lists. -/
def containsSubL : List Char → List Char → Bool
  | [], sub => sub.isEmpty
  | c :: cs, sub => hasPrefixL (c :: cs) sub || containsSubL cs sub

/-- Model of `strings.Split(s, sep)` for a one-rune separator:
`splitChar [] sep = [[]]`, and each occurrence of `sep` starts a new field. -/
def splitChar : List Char → Char → List (List Char)
  | [], _ => [[]]
  | c :: cs, sep =>
    if c = sep then [] :: splitChar cs sep
    else
      match splitChar cs sep with
      | [] => [[c]]
      | h :: t => (c :: h) :: t

/-- Model of `strings.SplitN(s, sep, 2)` for a one-rune separator. -/
def splitN2 (sep : Char) (l : List Char) : List (List Char) :=
  if containsChar l sep then
    [l.takeWhile (· ≠ sep), (l.dropWhile (· ≠ sep)).drop 1]
  else [l]

/-- The part of `s` before the first occurrence of `c` (all of `s` if `c` is
absent): `strings.SplitN(s, c, 2)[0]`. -/
def beforeChar (c : Char) (s : String) : String :=
  ⟨s.data.takeWhile (· ≠ c)⟩

/-- The part of `s` after the first occurrence of `c` (empty if `c` is
absent): `strings.SplitN(s, c, 2)[1]`. -/
def afterChar (c : Char) (s : String) : String :=
  ⟨(s.data.dropWhile (· ≠ c)).drop 1⟩

/-- Decimal value of a nonempty all-digit character list, `none` otherwise. -/
def digitsVal (l : List Char) : Option Nat :=
  if l = [] then none
  else if l.all Char.isDigit then
    some (l.foldl (fun a c => a * 10 + (c.toNat - 48)) 0)
  else none

/-- Model of `strconv.Atoi`: an optional sign followed by at least one
decimal digit (machine-int overflow is not modelled; the program never
feeds `Atoi` numbers near 2^63). -/
def goAtoi (s : String) : Option Int :=
  match s.data with
  | '+' :: ds => (digitsVal ds).map Int.ofNat
  | '-' :: ds => (digitsVal ds).map (fun n => -(n : Int))
  | ds => (digitsVal ds).map Int.ofNat

/-- Model of `strings.EqualFold` via ASCII lower-casing; the identifiers this
program compares are ASCII. -/
def goEqualFold (a b : String) : Bool :=
  a.data.map Char.toLower == b.data.map Char.toLower

/-- Model of `url.Parse(s).Path` for the inputs `Add`'s URL branch feeds it:
an `http(s)://host/path` URL or a scheme-less colon-free path such as
`github.com/owner/name`.  The fragment (after `#`) and query (after `?`) are
stripped; percent-decoding is not modelled (the program's identifiers contain
no percent-escapes). -/
def goURLPath (s : List Char) : List Char :=
  let s1 := s.takeWhile (· ≠ '#')
  let s2 := s1.takeWhile (· ≠ '?')
  if hasPrefixL s2 "https://".data then (s2.drop 8).dropWhile (· ≠ '/')
  else if hasPrefixL s2 "http://".data then (s2.drop 7).dropWhile (· ≠ '/')
  else s2

/-! ### JSON decoding model for `Load`

`Load` decodes the store file into `[]string` with `encoding/json`.  The
model distinguishes the three outcomes the Go code distinguishes: a clean
EOF before any value (`io.EOF`, returned for an empty or white-space-only
stream), a successful decode, and any other decode error.  String escapes
are not modelled: the strings this program persists contain none. -/

inductive JsonDecodeResult where
  | eof : JsonDecodeResult
  | ok (xs : List String) : JsonDecodeResult
  | err : JsonDecodeResult
  deriving DecidableEq, Repr

/-- JSON white space (RFC 8259): space, tab, newline, carriage return. -/
def isJsonSpace (c : Char) : Bool :=
  c = ' ' || c = '\t' || c = '\n' || c = '\r'

/-- Read a JSON string literal body (no escapes) after the opening quote:
returns the contents and the remaining input, or `none` on a bad literal. -/
def parseStringLit (fuel : Nat) (l : List Char) : Option (String × List Char) :=
  match fuel, l with
  | 0, _ => none
  | _, [] => none
  | _ + 1, c :: rest =>
    if c = '"' then some ("", rest)
    else if c = '\\' then none
    else
      match parseStringLit fuel rest with
      | none => none
      | some (s, rest2) => some (⟨c :: s.data⟩, rest2)

/-- Read the items of a JSON array of strings, positioned just after `[` or
after a `,`; `afterComma` records whether an item is mandatory. -/
def parseItems (fuel : Nat) (afterComma : Bool) (l : List Char) :
    Option (List String) :=
  match fuel with
  | 0 => none
  | fuel + 1 =>
    match l.dropWhile isJsonSpace with
    | [] => none
    | ']' :: _ => if afterComma then none else some []
    | '"' :: rest =>
      match parseStringLit fuel rest with
      | none => none
      | some (s, rest2) =>
        match rest2.dropWhile isJsonSpace with
        | ']' :: _ => some [s]
        | ',' :: rest3 =>
          match parseItems fuel true rest3 with
          | none => none
          | some xs => some (s :: xs)
        | _ => none
    | _ => none

/-- Decode one JSON value from the stream into `[]string`, as
`json.NewDecoder(f).Decode(&repos)` does: `eof` when the stream holds only
white space, `ok` for `null` or an array of strings, `err` otherwise. -/
def decodeStringArray (s : String) : JsonDecodeResult :=
  match s.data.dropWhile isJsonSpace with
  | [] => .eof
  | 'n' :: 'u' :: 'l' :: 'l' :: _ => .ok []
  | '[' :: rest =>
    match parseItems (s.data.length + 1) false rest with
    | some xs => .ok xs
    | none => .err
  | _ => .err

/-! ### The Store (`RepoStore` in `main.go`)

The store file is modelled as `Option String`: `none` when the file does not
exist, `some contents` otherwise.  `Save` always succeeds in the model, so an
operation's successful result `Except.ok repos` means exactly "`Save(repos)`
was called"; an `Except.error _` result means the operation returned before
saving, leaving the persisted sequence unchanged. -/

inductive LoadError where
  | decodeError : LoadError
  deriving DecidableEq, Repr

/-- `RepoStore.Load` (main.go:36-53): a missing file and a clean-EOF decode
(`io.EOF`) yield the empty list; any other decode error is returned. -/
def Load (file : Option String) : Except LoadError (List String) :=
  match file with
  | none => .ok []
  | some s =>
    match decodeStringArray s with
    | .eof => .ok []
    | .ok xs => .ok xs
    | .err => .error .decodeError

inductive AddError where
  | emptyRepo : AddError
  | invalidFormat : AddError
  | invalidNumber (numStr : String) : AddError
  | badRepoFormat : AddError
  | alreadyExists : AddError
  deriving DecidableEq, Repr

/-- The URL-normalization step of `Add` (main.go:72-86): when the input looks
like a URL, extract `owner/name` from its path, or `owner/name#number` from a
path shaped `owner/name/pull/<integer>`; otherwise leave it unchanged. -/
def urlNormalize (repo : String) : String :=
  if containsSubL repo.data "github.com/".data ||
      hasPrefixL repo.data "http://".data ||
      hasPrefixL repo.data "https://".data then
    let path := trimSlashes (goURLPath repo.data)
    let parts := splitChar path '/'
    if 4 ≤ parts.length && parts.getD 2 [] = "pull".data then
      match goAtoi ⟨parts.getD 3 []⟩ with
      | some _ =>
        ⟨parts.getD 0 [] ++ '/' :: parts.getD 1 [] ++ '#' :: parts.getD 3 []⟩
      | none => repo
    else if 2 ≤ parts.length then ⟨parts.getD 0 [] ++ '/' :: parts.getD 1 []⟩
    else repo
  else repo

/-- Trimming followed by URL normalization: the value `Add` validates,
deduplicates against, and stores. -/
def normalizeAdd (raw : String) : String :=
  urlNormalize (goTrimSpace raw)

/-- The repo portion of a reference with an optional `#` suffix: the part
before the first `#` (trimmed) when a `#` is present, the whole value
otherwise.  Both `Add` (main.go:88-92) and `fetchPRs` (main.go:159-164)
compute this. -/
def hashRepoPart (repo : String) : String :=
  if containsChar repo.data '#' then goTrimSpace (beforeChar '#' repo) else repo

/-- The final validation and persist step of `Add` (main.go:100-113). -/
def addFinish (stored : List String) (repo repoPart : String) :
    Except AddError (List String) :=
  if !containsChar repoPart.data '/' then .error .badRepoFormat
  else if stored.any (fun r => goEqualFold r repo) then .error .alreadyExists
  else .ok (stored ++ [repo])

/-- `RepoStore.Add` (main.go:66-114) over an explicit stored list: trim,
reject empty input, normalize URLs, validate the optional `#number` suffix,
require a `/` in the repo part, reject case-insensitive duplicates, then
append and save. -/
def Add (stored : List String) (raw : String) : Except AddError (List String) :=
  if goTrimSpace raw = "" then .error .emptyRepo
  else if containsChar (normalizeAdd raw).data '#' then
    if goTrimSpace (beforeChar '#' (normalizeAdd raw)) = "" ||
        goTrimSpace (afterChar '#' (normalizeAdd raw)) = "" then
      .error .invalidFormat
    else
      match goAtoi (goTrimSpace (afterChar '#' (normalizeAdd raw))) with
      | none =>
        .error (.invalidNumber (goTrimSpace (afterChar '#' (normalizeAdd raw))))
      | some _ =>
        addFinish stored (normalizeAdd raw) (hashRepoPart (normalizeAdd raw))
  else addFinish stored (normalizeAdd raw) (hashRepoPart (normalizeAdd raw))

inductive RemoveError where
  | emptyRepo : RemoveError
  | notFound : RemoveError
  deriving DecidableEq, Repr

/-- The match `Remove` uses to locate an entry (main.go:127):
case-insensitive or exact equality. -/
def removeMatches (r repo : String) : Bool :=
  goEqualFold r repo || r == repo

/-- Index of the first entry matching `repo`, as `Remove`'s loop computes. -/
def firstMatchIdx (stored : List String) (repo : String) : Option Nat :=
  match stored with
  | [] => none
  | r :: rest =>
    if removeMatches r repo then some 0
    else (firstMatchIdx rest repo).map (· + 1)

/-- `RepoStore.Remove` (main.go:116-137) over an explicit stored list: trim,
reject empty input, remove the first matching entry and save, or fail when
no entry matches. -/
def Remove (stored : List String) (raw : String) :
    Except RemoveError (List String) :=
  if goTrimSpace raw = "" then .error .emptyRepo
  else
    match firstMatchIdx stored (goTrimSpace raw) with
    | none => .error .notFound
    | some i => .ok (stored.eraseIdx i)

/-! ### The Fetcher (`fetchPRs`) and Aggregator (`cmdList`)

`fetchPRs` first decides, from the reference alone, which endpoint to
request: one specific pull request, or the repository's open-pull-request
collection.  That decision (main.go:157-183) is pure and is modelled by
`fetchPlan`/`requestURL`.  The network exchange itself is modelled by
passing the per-reference outcome function to the aggregator. -/

/-- A pull request record as decoded from the API response
(main.go:139-149); the timestamp is kept as its wire string. -/
structure PullRequest where
  number : Int
  title : String
  htmlURL : String
  userLogin : String
  createdAt : String
  deriving DecidableEq, Repr

/-- What `fetchPRs` decides to request for a reference. -/
inductive FetchPlan where
  | single (owner name : String) (n : Int) : FetchPlan
  | collection (owner name : String) : FetchPlan
  deriving DecidableEq, Repr

/-- The pull-request number `fetchPRs` extracts (main.go:160-172): set only
when a `#` is present and its trimmed suffix is nonempty and parses as an
integer; otherwise unset, with no error. -/
def fetchPRNum (repo : String) : Option Int :=
  if containsChar repo.data '#' then
    if goTrimSpace (afterChar '#' repo) ≠ "" then
      goAtoi (goTrimSpace (afterChar '#' repo))
    else none
  else none

/-- The reference-parsing step of `fetchPRs` (main.go:157-177): an optional
`#suffix` is split off and used only when it is nonempty and parses as an
integer; the remainder must contain a `/` to split into owner and name. -/
def fetchPlan (repo : String) : Except String FetchPlan :=
  if (splitN2 '/' (hashRepoPart repo).data).length ≠ 2 then
    .error ("invalid repo: " ++ repo)
  else
    match fetchPRNum repo with
    | some n =>
      .ok (.single ⟨(splitN2 '/' (hashRepoPart repo).data).getD 0 []⟩
        ⟨(splitN2 '/' (hashRepoPart repo).data).getD 1 []⟩ n)
    | none =>
      .ok (.collection ⟨(splitN2 '/' (hashRepoPart repo).data).getD 0 []⟩
        ⟨(splitN2 '/' (hashRepoPart repo).data).getD 1 []⟩)

/-- The request URL built for a plan (main.go:178-183). -/
def requestURL : FetchPlan → String
  | .single owner name n =>
    "https://api.github.com/repos/" ++ owner ++ "/" ++ name ++ "/pulls/" ++
      toString n
  | .collection owner name =>
    "https://api.github.com/repos/" ++ owner ++ "/" ++ name ++
      "/pulls?state=open"

/-- The error text `fetchPRs` produces for a non-200 response
(main.go:195-197): the HTTP status line and the trimmed body. -/
def apiError (status body : String) : String :=
  "github API error: " ++ status ++ ": " ++ goTrimSpace body

/-- One aggregated outcome (`PRResult`, main.go:151-155): a reference with
either its pull requests or an error. -/
structure PRResult where
  repo : String
  prs : List PullRequest
  err : Option String
  deriving DecidableEq, Repr

/-- The fan-out/fan-in of `cmdList` (main.go:267-285): one fetch per stored
reference, every reference attempted regardless of other references'
failures, one `PRResult` per reference.  The Go code collects results from a
channel in arbitrary completion order; the model fixes launch order, which
is one of the admitted orders. -/
def listAll (repos : List String)
    (fetch : String → Except String (List PullRequest)) : List PRResult :=
  repos.map fun r =>
    match fetch r with
    | .ok prs => ⟨r, prs, none⟩
    | .error e => ⟨r, [], some e⟩

/-! ### The Renderer's title truncation (`truncate`) -/

/-- `truncate` (main.go:288-301): rune-safe truncation of `s` to at most
`max` characters, replacing the tail with `...` when truncation happens and
`max` leaves room for it.  `max` is a Go `int` and may be non-positive. -/
def truncate (s : String) (max : Int) : String :=
  if max ≤ 0 then ""
  else
    let rs := s.data
    if (rs.length : Int) ≤ max then s
    else if max ≤ 3 then ⟨rs.take max.toNat⟩
    else ⟨rs.take (max - 3).toNat⟩ ++ "..."

/-! ### Helper lemmas about the string-function models -/

theorem containsChar_eq_false_of {l : List Char} {a : Char}
    (h : ∀ c ∈ l, c ≠ a) : containsChar l a = false := by
  simp only [containsChar, List.any_eq_false, decide_eq_true_eq]
  exact h

theorem containsChar_append (l m : List Char) (a : Char) :
    containsChar (l ++ m) a = (containsChar l a || containsChar m a) :=
  List.any_append

theorem dropWhile_eq_self_of_head {p : Char → Bool} {c : Char} {cs : List Char}
    (h : p c = false) : (c :: cs).dropWhile p = c :: cs := by
  simp [List.dropWhile_cons, h]

theorem trimBy_eq_self {p : Char → Bool} {l : List Char}
    (h : ∀ c ∈ l, p c = false) : trimBy p l = l := by
  unfold trimBy
  have h1 : l.dropWhile p = l := by
    cases l with
    | nil => rfl
    | cons c cs => exact dropWhile_eq_self_of_head (h c (by simp))
  rw [h1]
  cases hr : l.reverse with
  | nil =>
    have : l = [] := List.reverse_eq_nil_iff.mp hr
    simp [this]
  | cons c cs =>
    have hc : c ∈ l := by
      rw [← List.mem_reverse, hr]; simp
    rw [dropWhile_eq_self_of_head (h c hc), ← hr, List.reverse_reverse]

theorem takeWhile_eq_self_of_all {p : Char → Bool} {l : List Char}
    (h : ∀ c ∈ l, p c = true) : l.takeWhile p = l :=
  List.takeWhile_eq_self_iff.mpr h

theorem splitChar_ne_nil (l : List Char) (sep : Char) : splitChar l sep ≠ [] := by
  induction l with
  | nil => simp [splitChar]
  | cons c cs ih =>
    unfold splitChar
    by_cases h : c = sep
    · simp [h]
    · simp only [h, if_false]
      cases hs : splitChar cs sep with
      | nil => simp
      | cons a t => simp

theorem splitChar_no_sep {l : List Char} {sep : Char}
    (h : ∀ c ∈ l, c ≠ sep) : splitChar l sep = [l] := by
  induction l with
  | nil => rfl
  | cons c cs ih =>
    unfold splitChar
    rw [if_neg (h c (by simp))]
    rw [ih (fun x hx => h x (by simp [hx]))]

theorem splitChar_field {xs ys : List Char} {sep : Char}
    (h : ∀ c ∈ xs, c ≠ sep) :
    splitChar (xs ++ sep :: ys) sep = xs :: splitChar ys sep := by
  induction xs with
  | nil => simp [splitChar]
  | cons c cs ih =>
    have hx : splitChar (cs ++ sep :: ys) sep = cs :: splitChar ys sep :=
      ih (fun x hxm => h x (by simp [hxm]))
    show splitChar (c :: (cs ++ sep :: ys)) sep = _
    rw [splitChar, if_neg (h c (by simp)), hx]

/-! ### Mock remote API for the aggregation scenario -/

/-- Three open pull requests for repo `ownerA/repoA` in the mock scenario. -/
def mockPRs : List PullRequest :=
  [⟨101, "Fix crash on startup", "https://github.com/ownerA/repoA/pull/101",
     "alice", "2024-05-01T10:00:00Z"⟩,
   ⟨102, "Improve docs", "https://github.com/ownerA/repoA/pull/102",
     "bob", "2024-05-02T11:30:00Z"⟩,
   ⟨103, "Refactor fetch loop", "https://github.com/ownerA/repoA/pull/103",
     "carol", "2024-05-03T09:15:00Z"⟩]

/-- Mock remote API: repo A returns three open pull requests; repo B returns
HTTP 404, surfaced through `fetchPRs`'s status-error path (`apiError`). -/
def mockFetch (repo : String) : Except String (List PullRequest) :=
  if repo = "ownerA/repoA" then .ok mockPRs
  else .error (apiError "404 Not Found" "404 page not found")

/-! ### Claim theorems -/

/-- C7: title truncation at limit 60 is rune-safe: a title of more than 60
characters truncates to exactly 60 characters ending in the `...` ellipsis
marker, and a title of at most 60 characters is returned unchanged. -/
theorem c7_truncate_rune_safe (s : String) :
    (60 < s.data.length →
      (truncate s 60).data.length = 60 ∧
      List.IsSuffix "...".data (truncate s 60).data) ∧
    (s.data.length ≤ 60 → truncate s 60 = s) := by
  constructor
  · intro h
    have hni : ¬ ((s.data.length : Int) ≤ 60) := by exact_mod_cast Nat.not_le.mpr h
    have e : truncate s 60 = ⟨s.data.take 57⟩ ++ "..." := by
      simp only [truncate]
      rw [if_neg (by norm_num : ¬ (60 : Int) ≤ 0), if_neg hni,
        if_neg (by norm_num : ¬ (60 : Int) ≤ 3)]
      rfl
    rw [e, String.data_append]
    constructor
    · simp only [List.length_append, List.length_take]
      have : "...".data.length = 3 := rfl
      rw [this]
      omega
    · exact List.suffix_append _ _
  · intro h
    have hle : ((s.data.length : Int) ≤ 60) := by exact_mod_cast h
    simp only [truncate]
    rw [if_neg (by norm_num : ¬ (60 : Int) ≤ 0), if_pos hle]

/-- C7 witness: a 100-character title truncates to 60 characters ending in
`...`; the 10-character title `0123456789` is unchanged. -/
theorem c7_truncate_witness :
    ((truncate ⟨List.replicate 100 'a'⟩ 60).data.length = 60 ∧
      List.IsSuffix "...".data (truncate ⟨List.replicate 100 'a'⟩ 60).data) ∧
    truncate "0123456789" 60 = "0123456789" :=
  ⟨(c7_truncate_rune_safe ⟨List.replicate 100 'a'⟩).1 (by simp),
   (c7_truncate_rune_safe "0123456789").2 (by decide)⟩

/-- C4: the aggregation produces exactly one outcome per reference, in
order, omitting and duplicating none, whatever each fetch returns; in the
mock scenario (repo A: three open pull requests, repo B: HTTP 404) it yields
one outcome with the three records and one outcome whose failure text
carries the 404 status. -/
theorem c4_one_outcome_per_ref :
    (∀ (repos : List String) (fetch : String → Except String (List PullRequest)),
      (listAll repos fetch).map PRResult.repo = repos) ∧
    listAll ["ownerA/repoA", "ownerB/repoB"] mockFetch =
      [⟨"ownerA/repoA", mockPRs, none⟩,
       ⟨"ownerB/repoB", [], some (apiError "404 Not Found" "404 page not found")⟩] ∧
    mockPRs.length = 3 ∧
    containsSubL (apiError "404 Not Found" "404 page not found").data
      "404".data = true := by
  refine ⟨?_, by decide, rfl, by decide⟩
  intro repos fetch
  induction repos with
  | nil => rfl
  | cons r rs ih =>
    show ((match fetch r with
          | .ok prs => (⟨r, prs, none⟩ : PRResult)
          | .error e => ⟨r, [], some e⟩) :: listAll rs fetch).map PRResult.repo
        = r :: rs
    rw [List.map_cons, ih]
    cases fetch r <;> rfl

/-- C8: `Add` normalizes URL inputs: a pull-request URL
`https://github.com/owner/name/pull/42` is stored as `owner/name#42`, and a
repository URL `https://github.com/owner/name` is stored as `owner/name`. -/
theorem c8_add_normalizes_urls :
    Add [] "https://github.com/owner/name/pull/42" =
      Except.ok ["owner/name#42"] ∧
    Add [] "https://github.com/owner/name" = Except.ok ["owner/name"] :=
  ⟨rfl, rfl⟩

/-- C1 counterexample: a persisted file holding malformed (non-empty,
non-white-space) JSON makes `Load` return an error, not an empty sequence as
the claim states. -/
theorem c1_counterexample_malformed_load_errors :
    Load (some "not json") = Except.error LoadError.decodeError := rfl

/-- C1 amended: `Load` returns an empty sequence with no error for a missing
file and for a file whose contents are empty or only white space (the decode
hits a clean EOF); for contents that are malformed JSON it returns the
decode error instead. -/
theorem c1_load_missing_or_empty_ok_malformed_errors :
    Load none = Except.ok [] ∧
    (∀ s : String, s.data.all isJsonSpace = true → Load (some s) = Except.ok []) ∧
    (∀ s : String, decodeStringArray s = JsonDecodeResult.err →
      Load (some s) = Except.error LoadError.decodeError) := by
  refine ⟨rfl, ?_, ?_⟩
  · intro s hs
    have h : s.data.dropWhile isJsonSpace = [] :=
      List.dropWhile_eq_nil_iff.mpr (List.all_eq_true.mp hs)
    show (match decodeStringArray s with
          | .eof => Except.ok []
          | .ok xs => Except.ok xs
          | .err => Except.error LoadError.decodeError) = Except.ok []
    unfold decodeStringArray
    rw [h]
  · intro s hs
    show (match decodeStringArray s with
          | .eof => Except.ok []
          | .ok xs => Except.ok xs
          | .err => Except.error LoadError.decodeError) =
        Except.error LoadError.decodeError
    rw [hs]

/-- C1 witness: an empty file and a white-space-only file both load as the
empty sequence; `not json` loads as an error. -/
theorem c1_load_witness :
    Load (some "") = Except.ok [] ∧ Load (some " \n ") = Except.ok [] ∧
    Load (some "not json") = Except.error LoadError.decodeError :=
  ⟨c1_load_missing_or_empty_ok_malformed_errors.2.1 "" (by decide),
   c1_load_missing_or_empty_ok_malformed_errors.2.1 " \n " (by decide),
   c1_load_missing_or_empty_ok_malformed_errors.2.2 "not json" (by decide)⟩

/-- C2 counterexample: the claim says a repo portion with two or more
slashes fails the format check, but `Add` only requires at least one slash:
`a/b/c` is accepted and stored. -/
theorem c2_counterexample_multi_slash_accepted :
    Add [] "a/b/c" = Except.ok ["a/b/c"] := rfl

/-- C2 amended: `Add` fails whenever the normalized form's repo portion (the
part before any `#`) contains no `/` at all; a repo portion with one or more
slashes passes this check (two or more slashes are not rejected). -/
theorem c2_add_no_slash_fails (stored : List String) (raw : String)
    (h : containsChar (hashRepoPart (normalizeAdd raw)).data '/' = false) :
    ∃ e, Add stored raw = Except.error e := by
  have hf : ∀ st repo,
      ∃ e, addFinish st repo (hashRepoPart (normalizeAdd raw)) = Except.error e :=
    fun st repo => ⟨.badRepoFormat, by simp [addFinish, h]⟩
  unfold Add
  split
  · exact ⟨.emptyRepo, rfl⟩
  · split
    · split
      · exact ⟨.invalidFormat, rfl⟩
      · split
        · exact ⟨.invalidNumber _, rfl⟩
        · exact hf stored (normalizeAdd raw)
    · exact hf stored (normalizeAdd raw)

/-- C2 witness: `foo` (no slash) is rejected. -/
theorem c2_add_no_slash_witness : ∃ e, Add [] "foo" = Except.error e :=
  c2_add_no_slash_fails [] "foo" (by decide)

/-- C3 counterexample: the claim says a negative suffix such as
`owner/name#-5` fails, but `strconv.Atoi` accepts the sign, so `Add`
accepts and stores it. -/
theorem c3_counterexample_negative_suffix_accepted :
    Add [] "owner/name#-5" = Except.ok ["owner/name#-5"] := rfl

/-- C3 amended: when the normalized input carries a `#` suffix, `Add`
succeeds only if the trimmed suffix parses as an optionally-signed integer,
and fails with the invalid-number error when the nonempty suffix does not
parse; a negative suffix parses and is therefore accepted. -/
theorem c3_add_hash_suffix_requires_integer (stored : List String)
    (raw : String)
    (hh : containsChar (normalizeAdd raw).data '#' = true) :
    (∀ l, Add stored raw = Except.ok l →
      ∃ n, goAtoi (goTrimSpace (afterChar '#' (normalizeAdd raw))) = some n) ∧
    (goTrimSpace (beforeChar '#' (normalizeAdd raw)) ≠ "" →
      goTrimSpace (afterChar '#' (normalizeAdd raw)) ≠ "" →
      goAtoi (goTrimSpace (afterChar '#' (normalizeAdd raw))) = none →
      Add stored raw = Except.error
        (AddError.invalidNumber
          (goTrimSpace (afterChar '#' (normalizeAdd raw))))) := by
  have h0 : goTrimSpace raw ≠ "" := by
    intro h
    rw [normalizeAdd, h] at hh
    exact absurd hh (by decide)
  constructor
  · intro l hl
    unfold Add at hl
    rw [if_neg h0, if_pos hh] at hl
    split at hl
    · exact absurd hl (by simp)
    · split at hl
      · exact absurd hl (by simp)
      · next n heq => exact ⟨n, heq⟩
  · intro hb hn ha
    unfold Add
    rw [if_neg h0, if_pos hh, if_neg (by simp [hb, hn]), ha]

/-- C3 witness: `owner/name#abc` fails with the invalid-number error, and
the success direction applied to the stored result of `owner/name#7`. -/
theorem c3_add_hash_suffix_witness :
    Add [] "owner/name#abc" = Except.error (AddError.invalidNumber "abc") ∧
    ∃ n, goAtoi (goTrimSpace (afterChar '#' (normalizeAdd "owner/name#7"))) =
      some n :=
  ⟨(c3_add_hash_suffix_requires_integer [] "owner/name#abc" (by decide)).2
      (by decide) (by decide) (by decide),
   (c3_add_hash_suffix_requires_integer [] "owner/name#7" (by decide)).1
      ["owner/name#7"] rfl⟩

/-- C5: adding a reference whose normalized form is already present in the
stored sequence under case-insensitive comparison fails; the error return
means `Save` is never reached, so the persisted sequence is unchanged. -/
theorem c5_duplicate_add_fails (stored : List String) (raw : String)
    (h : stored.any (fun r => goEqualFold r (normalizeAdd raw)) = true) :
    ∃ e, Add stored raw = Except.error e := by
  have hf : ∀ rp, ∃ e, addFinish stored (normalizeAdd raw) rp = Except.error e := by
    intro rp
    unfold addFinish
    split
    · exact ⟨.badRepoFormat, rfl⟩
    · exact ⟨.alreadyExists, rfl⟩
  unfold Add
  split
  · exact ⟨.emptyRepo, rfl⟩
  · split
    · split
      · exact ⟨.invalidFormat, rfl⟩
      · split
        · exact ⟨.invalidNumber _, rfl⟩
        · exact hf _
    · exact hf _

/-- C5 witness: re-adding `owner/name` over stored `Owner/Name` fails. -/
theorem c5_duplicate_add_witness :
    ∃ e, Add ["Owner/Name"] "owner/name" = Except.error e :=
  c5_duplicate_add_fails ["Owner/Name"] "owner/name" (by decide)

/-! ### `firstMatchIdx` lemmas for `Remove` -/

theorem firstMatchIdx_eq_none {stored : List String} {t : String}
    (h : ∀ r ∈ stored, removeMatches r t = false) :
    firstMatchIdx stored t = none := by
  induction stored with
  | nil => rfl
  | cons r rs ih =>
    unfold firstMatchIdx
    rw [if_neg (by simp [h r (by simp)]), ih (fun x hx => h x (by simp [hx]))]
    rfl

theorem firstMatchIdx_spec {stored : List String} {t : String} :
    ∀ {i : Nat}, firstMatchIdx stored t = some i →
    ∃ hi : i < stored.length,
      removeMatches (stored.get ⟨i, hi⟩) t = true ∧
      ∀ j (hj : j < i),
        removeMatches (stored.get ⟨j, Nat.lt_trans hj hi⟩) t = false := by
  induction stored with
  | nil => intro i h; simp [firstMatchIdx] at h
  | cons r rs ih =>
    intro i h
    unfold firstMatchIdx at h
    by_cases hr : removeMatches r t = true
    · rw [if_pos hr] at h
      injection h with h2
      subst h2
      exact ⟨by simp, by simpa using hr,
        fun j hj => absurd hj (Nat.not_lt_zero j)⟩
    · have hrf : removeMatches r t = false := by simpa using hr
      rw [if_neg hr] at h
      cases hrs : firstMatchIdx rs t with
      | none => rw [hrs] at h; simp at h
      | some i2 =>
        rw [hrs] at h
        have h2 : i2 + 1 = i := by simpa using h
        subst h2
        obtain ⟨hlt, hm, hprev⟩ := ih hrs
        refine ⟨Nat.succ_lt_succ hlt, by simpa using hm, ?_⟩
        intro j hj
        cases j with
        | zero => simpa using hrf
        | succ j2 =>
          have := hprev j2 (Nat.lt_of_succ_lt_succ hj)
          simpa using this

theorem firstMatchIdx_exists {stored : List String} {t : String}
    (h : ∃ r ∈ stored, removeMatches r t = true) :
    ∃ i, firstMatchIdx stored t = some i := by
  induction stored with
  | nil => simp at h
  | cons r rs ih =>
    by_cases hr : removeMatches r t = true
    · exact ⟨0, by unfold firstMatchIdx; rw [if_pos hr]⟩
    · obtain ⟨x, hx, hm⟩ := h
      rcases List.mem_cons.mp hx with rfl | hx2
      · exact absurd hm hr
      · obtain ⟨i, hi⟩ := ih ⟨x, hx2, hm⟩
        exact ⟨i + 1, by unfold firstMatchIdx; rw [if_neg hr, hi]; rfl⟩

/-- C6: for trimmed non-empty input, `Remove` fails with not-found (saving
nothing, so the stored sequence is unchanged) when no stored entry matches
case-insensitively or exactly; when a match exists it removes the first
matching entry — every earlier entry is a non-match — persists the result,
and the sequence shrinks by exactly one. -/
theorem c6_remove_first_match (stored : List String) (raw : String)
    (hne : goTrimSpace raw ≠ "") :
    ((∀ r ∈ stored, removeMatches r (goTrimSpace raw) = false) →
      Remove stored raw = Except.error RemoveError.notFound) ∧
    ((∃ r ∈ stored, removeMatches r (goTrimSpace raw) = true) →
      ∃ i, ∃ hi : i < stored.length,
        removeMatches (stored.get ⟨i, hi⟩) (goTrimSpace raw) = true ∧
        (∀ j (hj : j < i),
          removeMatches (stored.get ⟨j, Nat.lt_trans hj hi⟩)
            (goTrimSpace raw) = false) ∧
        Remove stored raw = Except.ok (stored.eraseIdx i) ∧
        (stored.eraseIdx i).length + 1 = stored.length) := by
  constructor
  · intro hnone
    unfold Remove
    rw [if_neg hne, firstMatchIdx_eq_none hnone]
  · intro hex
    obtain ⟨i, hi⟩ := firstMatchIdx_exists hex
    obtain ⟨hlt, hm, hprev⟩ := firstMatchIdx_spec hi
    refine ⟨i, hlt, hm, hprev, ?_, ?_⟩
    · unfold Remove
      rw [if_neg hne, hi]
    · rw [List.length_eraseIdx, if_pos hlt]
      omega

/-- C6 witness: removing an absent reference fails with not-found; removing
`C/D` from `[a/b, c/d]` removes the first (index 1) case-insensitive match
and shrinks the sequence by one. -/
theorem c6_remove_witness :
    Remove ["a/b"] "x/y" = Except.error RemoveError.notFound ∧
    (∃ i, ∃ hi : i < (["a/b", "c/d"] : List String).length,
      removeMatches ((["a/b", "c/d"] : List String).get ⟨i, hi⟩)
        (goTrimSpace "C/D") = true ∧
      (∀ j (hj : j < i),
        removeMatches ((["a/b", "c/d"] : List String).get
          ⟨j, Nat.lt_trans hj hi⟩) (goTrimSpace "C/D") = false) ∧
      Remove ["a/b", "c/d"] "C/D" =
        Except.ok ((["a/b", "c/d"] : List String).eraseIdx i) ∧
      ((["a/b", "c/d"] : List String).eraseIdx i).length + 1 =
        (["a/b", "c/d"] : List String).length) :=
  ⟨(c6_remove_first_match ["a/b"] "x/y" (by decide)).1 (by decide),
   (c6_remove_first_match ["a/b", "c/d"] "C/D" (by decide)).2 (by decide)⟩

/-- C10: a reference `owner/name#suffix` whose trimmed suffix is empty or
does not parse as an integer does not make the fetch fail on the suffix: the
suffix is silently ignored and the plan is the open-pull-request collection
endpoint for the repo part, not a single pull request. -/
theorem c10_bad_suffix_fetches_collection (repo : String)
    (hh : containsChar repo.data '#' = true)
    (hbad : goTrimSpace (afterChar '#' repo) = "" ∨
      goAtoi (goTrimSpace (afterChar '#' repo)) = none)
    (hslash : containsChar (hashRepoPart repo).data '/' = true) :
    ∃ owner name,
      fetchPlan repo = Except.ok (FetchPlan.collection owner name) ∧
      requestURL (FetchPlan.collection owner name) =
        "https://api.github.com/repos/" ++ owner ++ "/" ++ name ++
          "/pulls?state=open" := by
  have hnum : fetchPRNum repo = none := by
    unfold fetchPRNum
    rw [if_pos hh]
    rcases hbad with hb | hb
    · rw [if_neg (not_not_intro hb)]
    · by_cases hne : goTrimSpace (afterChar '#' repo) ≠ ""
      · rw [if_pos hne]; exact hb
      · rw [if_neg hne]
  have hsplit : splitN2 '/' (hashRepoPart repo).data =
      [(hashRepoPart repo).data.takeWhile (· ≠ '/'),
       ((hashRepoPart repo).data.dropWhile (· ≠ '/')).drop 1] := by
    unfold splitN2
    rw [if_pos hslash]
  refine ⟨⟨(hashRepoPart repo).data.takeWhile (· ≠ '/')⟩,
    ⟨((hashRepoPart repo).data.dropWhile (· ≠ '/')).drop 1⟩, ?_, rfl⟩
  unfold fetchPlan
  rw [hsplit]
  rw [if_neg (by simp), hnum]
  rfl

/-- C10 witness: fetching `owner/name#abc` silently drops the suffix and
plans the collection endpoint for `owner/name`. -/
theorem c10_bad_suffix_witness :
    ∃ owner name,
      fetchPlan "owner/name#abc" = Except.ok (FetchPlan.collection owner name) ∧
      requestURL (FetchPlan.collection owner name) =
        "https://api.github.com/repos/" ++ owner ++ "/" ++ name ++
          "/pulls?state=open" :=
  c10_bad_suffix_fetches_collection "owner/name#abc" (by decide)
    (Or.inr (by decide)) (by decide)

/-- C9: a GitHub URL whose path is `owner/name/pull/<suffix>` with a suffix
that is not a decimal integer (`goAtoi sfx = none`) is neither rejected nor
normalized by `Add`: the raw URL string itself is stored.  `sfx` ranges over
nonempty suffixes free of white space and of the `#`, `?`, `/`
metacharacters — exactly the strings that can stand as the final path
segment of such a fragment-free, query-free URL. -/
theorem c9_bad_pull_url_stored_raw (sfx : String) (hne : sfx.data ≠ [])
    (hatoi : goAtoi sfx = none)
    (hchars : ∀ c ∈ sfx.data,
      isGoSpace c = false ∧ c ≠ '#' ∧ c ≠ '?' ∧ c ≠ '/') :
    Add [] ("https://github.com/owner/name/pull/" ++ sfx) =
      Except.ok ["https://github.com/owner/name/pull/" ++ sfx] := by
  have hdata : ("https://github.com/owner/name/pull/" ++ sfx).data =
      "https://github.com/owner/name/pull/".data ++ sfx.data :=
    String.data_append _ _
  have hts : ∀ c ∈ "https://github.com/owner/name/pull/".data ++ sfx.data,
      isGoSpace c = false := by
    intro c hc
    rcases List.mem_append.mp hc with hl | hr
    · exact (by decide : ∀ c ∈ "https://github.com/owner/name/pull/".data,
        isGoSpace c = false) c hl
    · exact (hchars c hr).1
  have htrim : goTrimSpace ("https://github.com/owner/name/pull/" ++ sfx) =
      "https://github.com/owner/name/pull/" ++ sfx := by
    unfold goTrimSpace
    rw [hdata, trimBy_eq_self hts, ← hdata]
  have hraw_ne : ("https://github.com/owner/name/pull/" ++ sfx) ≠ "" := by
    intro h
    have h2 : ("https://github.com/owner/name/pull/" ++ sfx).data = [] := by
      rw [h]
    rw [hdata] at h2
    rcases List.append_eq_nil.mp h2 with ⟨h3, _⟩
    exact absurd h3 (by decide)
  have htk1 : ("https://github.com/owner/name/pull/".data ++
        sfx.data).takeWhile (· ≠ '#') =
      "https://github.com/owner/name/pull/".data ++ sfx.data := by
    apply takeWhile_eq_self_of_all
    intro c hc
    rcases List.mem_append.mp hc with hl | hr
    · exact (by decide : ∀ c ∈ "https://github.com/owner/name/pull/".data,
        ((· ≠ '#') : Char → Bool) c = true) c hl
    · simpa using (hchars c hr).2.1
  have htk2 : ("https://github.com/owner/name/pull/".data ++
        sfx.data).takeWhile (· ≠ '?') =
      "https://github.com/owner/name/pull/".data ++ sfx.data := by
    apply takeWhile_eq_self_of_all
    intro c hc
    rcases List.mem_append.mp hc with hl | hr
    · exact (by decide : ∀ c ∈ "https://github.com/owner/name/pull/".data,
        ((· ≠ '?') : Char → Bool) c = true) c hl
    · simpa using (hchars c hr).2.2.1
  have hurl : goURLPath ("https://github.com/owner/name/pull/".data ++ sfx.data) =
      '/' :: ("owner/name/pull/".data ++ sfx.data) := by
    simp only [goURLPath]
    rw [htk1, htk2]
    have hp : hasPrefixL ("https://github.com/owner/name/pull/".data ++ sfx.data)
        "https://".data = true := rfl
    rw [if_pos hp]
    rfl
  have htrimsl : trimSlashes ('/' :: ("owner/name/pull/".data ++ sfx.data)) =
      "owner/name/pull/".data ++ sfx.data := by
    unfold trimSlashes trimBy
    have hfront :
        List.dropWhile (· = '/') ('/' :: ("owner/name/pull/".data ++ sfx.data)) =
        "owner/name/pull/".data ++ sfx.data := rfl
    rw [hfront, List.reverse_append]
    cases hsr : sfx.data.reverse with
    | nil => exact absurd (List.reverse_eq_nil_iff.mp hsr) hne
    | cons c cs =>
      have hc : c ∈ sfx.data := by
        rw [← List.mem_reverse, hsr]; simp
      have hcf : ((· = '/') : Char → Bool) c = false := by
        simpa using (hchars c hc).2.2.2
      rw [List.cons_append, dropWhile_eq_self_of_head hcf, ← List.cons_append,
        ← hsr, ← List.reverse_append, List.reverse_reverse]
  have hsplit4 : splitChar ("owner/name/pull/".data ++ sfx.data) '/' =
      ["owner".data, "name".data, "pull".data, sfx.data] := by
    have he : "owner/name/pull/".data ++ sfx.data =
        "owner".data ++ '/' ::
          ("name".data ++ '/' :: ("pull".data ++ '/' :: sfx.data)) := rfl
    rw [he, splitChar_field (by decide), splitChar_field (by decide),
      splitChar_field (by decide),
      splitChar_no_sep (fun c hc => (hchars c hc).2.2.2)]
  have hnorm : urlNormalize ("https://github.com/owner/name/pull/" ++ sfx) =
      "https://github.com/owner/name/pull/" ++ sfx := by
    simp only [urlNormalize]
    rw [hdata]
    have hcond :
        (containsSubL ("https://github.com/owner/name/pull/".data ++ sfx.data)
            "github.com/".data ||
          hasPrefixL ("https://github.com/owner/name/pull/".data ++ sfx.data)
            "http://".data ||
          hasPrefixL ("https://github.com/owner/name/pull/".data ++ sfx.data)
            "https://".data) = true := rfl
    rw [if_pos hcond]
    rw [hurl, htrimsl, hsplit4]
    have hcond2 :
        (decide (4 ≤ (["owner".data, "name".data, "pull".data, sfx.data] :
            List (List Char)).length) &&
          decide ((["owner".data, "name".data, "pull".data, sfx.data] :
            List (List Char)).getD 2 [] = "pull".data)) = true := rfl
    rw [if_pos hcond2]
    have hgd : (⟨(["owner".data, "name".data, "pull".data, sfx.data] :
        List (List Char)).getD 3 []⟩ : String) = sfx := rfl
    rw [hgd, hatoi]
  have hnorm2 : normalizeAdd ("https://github.com/owner/name/pull/" ++ sfx) =
      "https://github.com/owner/name/pull/" ++ sfx := by
    unfold normalizeAdd
    rw [htrim, hnorm]
  have hnohash :
      containsChar ("https://github.com/owner/name/pull/" ++ sfx).data '#' =
        false := by
    rw [hdata, containsChar_append,
      (by decide :
        containsChar "https://github.com/owner/name/pull/".data '#' = false),
      containsChar_eq_false_of (fun c hc => (hchars c hc).2.1)]
    rfl
  have hslash2 :
      containsChar ("https://github.com/owner/name/pull/" ++ sfx).data '/' =
        true := by
    rw [hdata]
    rfl
  unfold Add
  rw [htrim, if_neg hraw_ne, hnorm2, hnohash]
  rw [if_neg (by simp)]
  unfold hashRepoPart
  rw [hnohash, if_neg (by simp)]
  unfold addFinish
  rw [hslash2]
  rw [if_neg (by simp), if_neg (by simp)]
  rfl

/-- C9 witness: `https://github.com/owner/name/pull/abc` is stored as the
raw URL string itself. -/
theorem c9_bad_pull_url_witness :
    Add [] ("https://github.com/owner/name/pull/" ++ "abc") =
      Except.ok ["https://github.com/owner/name/pull/" ++ "abc"] :=
  c9_bad_pull_url_stored_raw "abc" (by decide) (by decide) (by decide)

end PrView
